import Mathlib

/-
  Verification development for the caching layer of the matchlearn backend,
  a shallow embedding of src/backend/cache.py.

  The embedding models:
  - Python values that flow through the cache (PyVal): None, bool, int, str,
    list, dict with string keys.  Floats do not occur in any cached call in
    the claims and are omitted.
  - LRUCache._generate_key: per-argument serialization (str() for scalars,
    json.dumps(..., sort_keys=True) for lists and dicts), join with a pipe,
    then the MD5 hex digest of the UTF-8 bytes (MD5 implemented below over
    Nat, RFC 1321).
  - The LRUCache state (an ordered association list standing for the
    OrderedDict: head is least recently used, last element is most recently
    used) and its operations get, set, clear, size, cleanup.  Wall-clock
    time is passed explicitly as a Nat.
  - The two decorator wrappers cache_llm_result and cache_api_response,
    modelled as one invocation step acting on an explicit store state,
    reporting the returned value, the new store and how many times the
    wrapped operation ran.
-/

namespace MLCache

/-- Python values that can appear as cached-call arguments or results. -/
inductive PyVal where
  | none
  | bool (b : Bool)
  | int (n : Int)
  | str (s : String)
  | list (xs : List PyVal)
  | dict (kvs : List (String × PyVal))

/-- Python truthiness, used for the force flag check in cache_llm_result. -/
def PyVal.truthy : PyVal → Bool
  | .none => false
  | .bool b => b
  | .int n => n != 0
  | .str s => !s.isEmpty
  | .list xs => !xs.isEmpty
  | .dict kvs => !kvs.isEmpty

/-- Whether a value is the Python None object. -/
def PyVal.isNone : PyVal → Bool
  | .none => true
  | _ => false

/-- isinstance(v, dict). -/
def PyVal.isDict : PyVal → Bool
  | .dict _ => true
  | _ => false

/-- Python membership test k in v, for dict values only. -/
def PyVal.hasKey : PyVal → String → Bool
  | .dict kvs, k => kvs.any (fun p => p.1 == k)
  | _, _ => false

/-- Lowercase hex digit. -/
def hexDigitChar (n : Nat) : Char :=
  ("0123456789abcdef").data.getD n ('0')

/-- Four lowercase hex digits, most significant first. -/
def hex4 (n : Nat) : String :=
  String.mk [hexDigitChar (n / 4096 % 16), hexDigitChar (n / 256 % 16),
             hexDigitChar (n / 16 % 16), hexDigitChar (n % 16)]

/-- One character escaped the way json.dumps (ensure_ascii default) does:
printable ASCII except quote and backslash stays itself, short escapes for
the usual control characters, unicode escapes otherwise, surrogate pairs
above the BMP. -/
def jsonEscapeChar (c : Char) : String :=
  if c = ('"') then ("\\\"")
  else if c = ('\\') then ("\\\\")
  else if c = ('\n') then ("\\n")
  else if c = ('\r') then ("\\r")
  else if c = ('\t') then ("\\t")
  else if c.toNat = 8 then ("\\b")
  else if c.toNat = 12 then ("\\f")
  else if c.toNat < 32 then ("\\u") ++ hex4 c.toNat
  else if c.toNat ≤ 126 then String.singleton c
  else if c.toNat < 65536 then ("\\u") ++ hex4 c.toNat
  else
    let v := c.toNat - 65536
    ("\\u") ++ hex4 (55296 + v / 1024) ++ ("\\u") ++ hex4 (56320 + v % 1024)

/-- JSON string literal as json.dumps renders it. -/
def jsonStr (s : String) : String :=
  ("\"") ++ String.join (s.data.map jsonEscapeChar) ++ ("\"")

/-- Sort an association list by key, the order sorted(d.items()) uses
(keys are unique in a Python dict, so the value component never takes part
in the comparison). -/
def sortPairs {α : Type} (l : List (String × α)) : List (String × α) :=
  List.insertionSort (fun a b => a.1 ≤ b.1) l

mutual

/-- json.dumps(v, sort_keys=True) with the default separators.  For a dict
the entries are rendered and then ordered by key, which agrees with sorting
the items first because rendering does not change the key. -/
def jsonDumps : PyVal → String
  | .none => ("null")
  | .bool true => ("true")
  | .bool false => ("false")
  | .int n => toString n
  | .str s => jsonStr s
  | .list xs => ("[") ++ String.intercalate (", ") (jsonDumpsList xs) ++ ("]")
  | .dict kvs =>
      ("\x7b") ++
        String.intercalate (", ")
          ((sortPairs (jsonDumpsKVs kvs)).map (fun kv => jsonStr kv.1 ++ (": ") ++ kv.2)) ++
      ("\x7d")

/-- Render every list element. -/
def jsonDumpsList : List PyVal → List String
  | [] => []
  | v :: rest => jsonDumps v :: jsonDumpsList rest

/-- Render every dict value, keeping the key. -/
def jsonDumpsKVs : List (String × PyVal) → List (String × String)
  | [] => []
  | (k, v) :: rest => (k, jsonDumps v) :: jsonDumpsKVs rest

end

/-- One positional argument serialized as in LRUCache._generate_key:
str(arg) for the scalar types (in Python: None renders as None, booleans as
True and False, ints decimally, str is itself), json.dumps(arg,
sort_keys=True) for list and dict.  Keyword argument values go through the
identical rule, so this function serves both paths. -/
def serializeArg : PyVal → String
  | .none => ("None")
  | .bool true => ("True")
  | .bool false => ("False")
  | .int n => toString n
  | .str s => s
  | .list xs => jsonDumps (.list xs)
  | .dict kvs => jsonDumps (.dict kvs)

/-- The list key_parts built by LRUCache._generate_key: serialized
positional arguments in order, then the keyword items sorted by name, each
rendered name:value. -/
def keyParts (args : List PyVal) (kwargs : List (String × PyVal)) : List String :=
  args.map serializeArg ++
    (sortPairs kwargs).map (fun kv => kv.1 ++ (":") ++ serializeArg kv.2)

/-- Python str.join with the pipe separator. -/
def joinParts : List String → String
  | [] => ("")
  | [p] => p
  | p :: rest => p ++ ("|") ++ joinParts rest

/-- The joined key string hashed by _generate_key. -/
def keyString (args : List PyVal) (kwargs : List (String × PyVal)) : String :=
  joinParts (keyParts args kwargs)

/- MD5 (RFC 1321) over byte lists represented as Nat, all words reduced
modulo 2 to the 32. -/

/-- Truncate to a 32-bit word. -/
def w32 (x : Nat) : Nat := x % 4294967296

/-- Bitwise complement within 32 bits. -/
def not32 (x : Nat) : Nat := 4294967295 ^^^ x

/-- Rotate a 32-bit word left by s. -/
def rotl32 (x s : Nat) : Nat := w32 ((x <<< s) ||| (x >>> (32 - s)))

/-- Round function F. -/
def mdF (b c d : Nat) : Nat := (b &&& c) ||| (not32 b &&& d)

/-- Round function G. -/
def mdG (b c d : Nat) : Nat := (d &&& b) ||| (not32 d &&& c)

/-- Round function H. -/
def mdH (b c d : Nat) : Nat := b ^^^ c ^^^ d

/-- Round function I. -/
def mdI (b c d : Nat) : Nat := c ^^^ (b ||| not32 d)

/-- The 64 sine-derived constants. -/
def mdK : List Nat :=
  [0xd76aa478, 0xe8c7b756, 0x242070db, 0xc1bdceee,
   0xf57c0faf, 0x4787c62a, 0xa8304613, 0xfd469501,
   0x698098d8, 0x8b44f7af, 0xffff5bb1, 0x895cd7be,
   0x6b901122, 0xfd987193, 0xa679438e, 0x49b40821,
   0xf61e2562, 0xc040b340, 0x265e5a51, 0xe9b6c7aa,
   0xd62f105d, 0x02441453, 0xd8a1e681, 0xe7d3fbc8,
   0x21e1cde6, 0xc33707d6, 0xf4d50d87, 0x455a14ed,
   0xa9e3e905, 0xfcefa3f8, 0x676f02d9, 0x8d2a4c8a,
   0xfffa3942, 0x8771f681, 0x6d9d6122, 0xfde5380c,
   0xa4beea44, 0x4bdecfa9, 0xf6bb4b60, 0xbebfbc70,
   0x289b7ec6, 0xeaa127fa, 0xd4ef3085, 0x04881d05,
   0xd9d4d039, 0xe6db99e5, 0x1fa27cf8, 0xc4ac5665,
   0xf4292244, 0x432aff97, 0xab9423a7, 0xfc93a039,
   0x655b59c3, 0x8f0ccc92, 0xffeff47d, 0x85845dd1,
   0x6fa87e4f, 0xfe2ce6e0, 0xa3014314, 0x4e0811a1,
   0xf7537e82, 0xbd3af235, 0x2ad7d2bb, 0xeb86d391]

/-- The per-round left-rotation amounts. -/
def mdS : List Nat :=
  [7, 12, 17, 22, 7, 12, 17, 22, 7, 12, 17, 22, 7, 12, 17, 22,
   5, 9, 14, 20, 5, 9, 14, 20, 5, 9, 14, 20, 5, 9, 14, 20,
   4, 11, 16, 23, 4, 11, 16, 23, 4, 11, 16, 23, 4, 11, 16, 23,
   6, 10, 15, 21, 6, 10, 15, 21, 6, 10, 15, 21, 6, 10, 15, 21]

/-- Little-endian 32-bit word number g of a 64-byte block. -/
def leWord (block : List Nat) (g : Nat) : Nat :=
  block.getD (4 * g) 0 + block.getD (4 * g + 1) 0 * 256 +
    block.getD (4 * g + 2) 0 * 65536 + block.getD (4 * g + 3) 0 * 16777216

/-- One of the 64 MD5 rounds. -/
def md5Round (block : List Nat) : Nat × Nat × Nat × Nat → Nat → Nat × Nat × Nat × Nat
  | (a, b, c, d), i =>
    let fg : Nat × Nat :=
      if i < 16 then (mdF b c d, i)
      else if i < 32 then (mdG b c d, (5 * i + 1) % 16)
      else if i < 48 then (mdH b c d, (3 * i + 5) % 16)
      else (mdI b c d, (7 * i) % 16)
    let f := w32 (fg.1 + a + mdK.getD i 0 + leWord block fg.2)
    (d, w32 (b + rotl32 f (mdS.getD i 0)), b, c)

/-- Digest one 64-byte block into the running state. -/
def md5Block (st : Nat × Nat × Nat × Nat) (block : List Nat) : Nat × Nat × Nat × Nat :=
  let r := (List.range 64).foldl (md5Round block) st
  (w32 (st.1 + r.1), w32 (st.2.1 + r.2.1), w32 (st.2.2.1 + r.2.2.1), w32 (st.2.2.2 + r.2.2.2))

/-- Split a byte list into 64-byte chunks.  Structural recursion on a fuel
counter so the kernel can evaluate it; the fuel starts at the list length,
which suffices because every step drops at least one element. -/
def chunks64Go : Nat → List Nat → List (List Nat)
  | _, [] => []
  | 0, _ :: _ => []
  | fuel + 1, x :: xs => ((x :: xs).take 64) :: chunks64Go fuel ((x :: xs).drop 64)

/-- Split a byte list into 64-byte chunks. -/
def chunks64 (l : List Nat) : List (List Nat) :=
  chunks64Go l.length l

/-- MD5 padding: 0x80, zeros to 56 mod 64, the bit length in 8 bytes little
endian. -/
def md5Pad (msg : List Nat) : List Nat :=
  let len := msg.length
  let bitLen := (len * 8) % 18446744073709551616
  let z := (119 - (len % 64)) % 64
  msg ++ [128] ++ List.replicate z 0 ++
    (List.range 8).map (fun i => (bitLen >>> (8 * i)) % 256)

/-- Render one 32-bit word as 8 hex characters, least significant byte
first, as the MD5 digest does. -/
def wordHex (w : Nat) : String :=
  String.mk [hexDigitChar (w / 16 % 16), hexDigitChar (w % 16),
             hexDigitChar (w / 4096 % 16), hexDigitChar (w / 256 % 16),
             hexDigitChar (w / 1048576 % 16), hexDigitChar (w / 65536 % 16),
             hexDigitChar (w / 268435456 % 16), hexDigitChar (w / 16777216 % 16)]

/-- MD5 hex digest of a byte list. -/
def md5Hex (msg : List Nat) : String :=
  let st := (chunks64 (md5Pad msg)).foldl md5Block
    (1732584193, 4023233417, 2562383102, 271733878)
  wordHex st.1 ++ wordHex st.2.1 ++ wordHex st.2.2.1 ++ wordHex st.2.2.2

/-- UTF-8 bytes of one character. -/
def utf8EncodeChar (c : Char) : List Nat :=
  let n := c.toNat
  if n < 128 then [n]
  else if n < 2048 then [192 + n / 64, 128 + n % 64]
  else if n < 65536 then [224 + n / 4096, 128 + n / 64 % 64, 128 + n % 64]
  else [240 + n / 262144, 128 + n / 4096 % 64, 128 + n / 64 % 64, 128 + n % 64]

/-- UTF-8 bytes of a string, as str.encode() produces. -/
def strBytes (s : String) : List Nat :=
  (s.data.map utf8EncodeChar).flatten

/-- MD5 hex digest of the UTF-8 encoding of a string. -/
def md5String (s : String) : String := md5Hex (strBytes s)

/-- LRUCache._generate_key: serialize, join with pipes, MD5. -/
def generateKey (args : List PyVal) (kwargs : List (String × PyVal)) : String :=
  md5String (keyString args kwargs)

/- The expiring entry store.  A CacheEntry mirrors the per-key record dict
built by LRUCache.set; the store itself is the OrderedDict, head least
recently used. -/

/-- One stored record: value, expires_at, created_at, timestamps as Nat
seconds. -/
structure CacheEntry where
  value : PyVal
  expires_at : Nat
  created_at : Nat

/-- The LRUCache object: the ordered map plus its configuration. -/
structure LRUCache where
  cache : List (String × CacheEntry)
  max_size : Nat
  default_ttl : Nat

/-- Dict lookup by key. -/
def lookupKey (l : List (String × CacheEntry)) (k : String) : Option CacheEntry :=
  (l.find? (fun p => p.1 == k)).map Prod.snd

/-- del l[k]: drop the entry with the given key (keys are unique in an
OrderedDict, so the filter removes at most one entry). -/
def eraseKey (l : List (String × CacheEntry)) (k : String) : List (String × CacheEntry) :=
  l.filter (fun p => p.1 != k)

/-- keys-are-unique invariant of the underlying dict. -/
def keysNodup (st : LRUCache) : Prop := (st.cache.map Prod.fst).Nodup

/-- LRUCache.size. -/
def LRUCache.size (st : LRUCache) : Nat := st.cache.length

/-- LRUCache.clear. -/
def LRUCache.clear (st : LRUCache) : LRUCache := { st with cache := [] }

/-- The body of LRUCache.get after the key is computed: miss on an absent
key; on a present key, delete and miss when expires_at < now, otherwise
move_to_end and return the value.  A key present exactly once makes
move_to_end equal to removing the entry and appending it.  The returned
PyVal is the Python return value, .none on a miss. -/
def LRUCache.getByKey (st : LRUCache) (now : Nat) (key : String) : PyVal × LRUCache :=
  match lookupKey st.cache key with
  | Option.none => (.none, st)
  | Option.some item =>
    if item.expires_at < now then
      (.none, { st with cache := eraseKey st.cache key })
    else
      (item.value, { st with cache := eraseKey st.cache key ++ [(key, item)] })

/-- LRUCache.get: derive the key from the call arguments, then read. -/
def LRUCache.get (st : LRUCache) (now : Nat) (args : List PyVal)
    (kwargs : List (String × PyVal)) : PyVal × LRUCache :=
  st.getByKey now (generateKey args kwargs)

/-- The body of LRUCache.set after the key is computed: store the record
under the key (assignment plus move_to_end on a unique key equals removing
any previous entry and appending the new one), then pop the head when the
length exceeds max_size. -/
def LRUCache.setByKey (st : LRUCache) (value : PyVal) (key : String)
    (ttl : Option Nat) (now : Nat) : LRUCache :=
  let t := ttl.getD st.default_ttl
  let entry : CacheEntry := ⟨value, now + t, now⟩
  let c := eraseKey st.cache key ++ [(key, entry)]
  { st with cache := if st.max_size < c.length then c.tail else c }

/-- LRUCache.set: derive the key from the call arguments, then write. -/
def LRUCache.set (st : LRUCache) (value : PyVal) (args : List PyVal)
    (kwargs : List (String × PyVal)) (ttl : Option Nat) (now : Nat) : LRUCache :=
  st.setByKey value (generateKey args kwargs) ttl now

/-- LRUCache.cleanup: collect the keys of the expired entries, delete each,
return how many were deleted together with the new state. -/
def LRUCache.cleanup (st : LRUCache) (now : Nat) : Nat × LRUCache :=
  let keysToRemove := (st.cache.filter (fun p => decide (p.2.expires_at < now))).map Prod.fst
  (keysToRemove.length, { st with cache := keysToRemove.foldl eraseKey st.cache })

/- The two decorators, modelled one invocation at a time.  The global store
instance the decorator closes over is threaded explicitly; fres is the
value the wrapped operation would return if it ran during this invocation,
and calls reports how often it ran (0 or 1). -/

/-- Result of one invocation of a wrapped operation. -/
structure CallOutcome where
  ret : PyVal
  store : LRUCache
  calls : Nat

/-- Lookup of one keyword argument. -/
def kwLookup (kwargs : List (String × PyVal)) (k : String) : Option PyVal :=
  (kwargs.find? (fun p => p.1 == k)).map Prod.snd

/-- The test "force_analyze" in kwargs and kwargs["force_analyze"] from
cache_llm_result. -/
def hasTruthyForce (kwargs : List (String × PyVal)) : Bool :=
  match kwLookup kwargs ("force_analyze") with
  | Option.some v => v.truthy
  | Option.none => false

/-- The write-back condition of cache_llm_result:
isinstance(result, dict) and "error" not in result. -/
def llmCacheable (v : PyVal) : Bool :=
  v.isDict && !(v.hasKey ("error"))

/-- The write-back condition of cache_api_response:
not isinstance(result, dict) or "error" not in result. -/
def apiCacheable (v : PyVal) : Bool :=
  !v.isDict || !(v.hasKey ("error"))

/-- One invocation of the wrapper produced by cache_llm_result: honor the
force flag, otherwise read the llm cache, on a miss (a read that returned
None) run the operation and write back dict results free of an "error"
key. -/
def llmWrapperCall (fres : PyVal) (args : List PyVal)
    (kwargs : List (String × PyVal)) (st : LRUCache) (now : Nat) : CallOutcome :=
  if hasTruthyForce kwargs then
    ⟨fres, st, 1⟩
  else
    let r := st.get now args kwargs
    if r.1.isNone = false then
      ⟨r.1, r.2, 0⟩
    else if llmCacheable fres then
      ⟨fres, r.2.set fres args kwargs Option.none now, 1⟩
    else
      ⟨fres, r.2, 1⟩

/-- One invocation of the wrapper produced by cache_api_response(ttl) on a
function named fname: read the api cache under the name-qualified key, on a
miss run the operation and write back unless the result is a dict carrying
an "error" key.  No force flag handling exists in this variant. -/
def apiWrapperCall (ttl : Nat) (fname : String) (fres : PyVal)
    (args : List PyVal) (kwargs : List (String × PyVal)) (st : LRUCache)
    (now : Nat) : CallOutcome :=
  let r := st.get now (.str fname :: args) kwargs
  if r.1.isNone = false then
    ⟨r.1, r.2, 0⟩
  else if apiCacheable fres then
    ⟨fres, r.2.set fres (.str fname :: args) kwargs (Option.some ttl) now, 1⟩
  else
    ⟨fres, r.2, 1⟩

/-- The llm_cache instance: LRUCache(max_size=500, default_ttl=86400). -/
def llmCacheInit : LRUCache := ⟨[], 500, 86400⟩

/-- The api_cache instance: LRUCache(max_size=1000, default_ttl=300). -/
def apiCacheInit : LRUCache := ⟨[], 1000, 300⟩

/-- Concrete store for the cleanup scenario of the spec: three entries
already past due at time 50, two still alive. -/
def cleanupDemoStore : LRUCache :=
  ⟨[(("k1"), ⟨.int 1, 10, 0⟩), (("k2"), ⟨.int 2, 20, 0⟩), (("k3"), ⟨.int 3, 30, 0⟩),
    (("k4"), ⟨.int 4, 100, 0⟩), (("k5"), ⟨.int 5, 200, 0⟩)], 10, 60⟩

/-- Structural equality of Python argument values, allowing one dict built
with its bindings inserted in a different order: either identical, or two
dicts whose binding lists are permutations of each other with no repeated
key (a Python dict never repeats a key). -/
def argEquiv (a b : PyVal) : Prop :=
  a = b ∨ ∃ d1 d2, a = PyVal.dict d1 ∧ b = PyVal.dict d2 ∧
    d1.Perm d2 ∧ (d1.map Prod.fst).Nodup

/-- Same keyword argument, with the value related by argEquiv. -/
def kwargEquiv (p q : String × PyVal) : Prop :=
  p.1 = q.1 ∧ argEquiv p.2 q.2

/- Helper lemmas about the association-list representation of the
OrderedDict. -/

set_option maxRecDepth 100000 in
theorem md5String_empty_vector :
    md5String ("") = ("d41d8cd98f00b204e9800998ecf8427e") := by decide

set_option maxRecDepth 100000 in
theorem md5String_abc_vector :
    md5String ("abc") = ("900150983cd24fb0d6963f7d28e17f72") := by decide

theorem mem_eraseKey_ne {l : List (String × CacheEntry)} {k : String} :
    ∀ p ∈ eraseKey l k, p.1 ≠ k := by
  intro p hp
  have := List.of_mem_filter hp
  simpa [bne_iff_ne] using this

theorem lookupKey_eq_none {l : List (String × CacheEntry)} {k : String}
    (h : ∀ p ∈ l, p.1 ≠ k) : lookupKey l k = Option.none := by
  have : l.find? (fun p => p.1 == k) = Option.none := by
    rw [List.find?_eq_none]
    intro p hp
    simpa using h p hp
  simp [lookupKey, this]

theorem lookupKey_eraseKey_self (l : List (String × CacheEntry)) (k : String) :
    lookupKey (eraseKey l k) k = Option.none :=
  lookupKey_eq_none (mem_eraseKey_ne)

theorem lookupKey_append_none {l1 l2 : List (String × CacheEntry)} {k : String}
    (h : lookupKey l1 k = Option.none) :
    lookupKey (l1 ++ l2) k = lookupKey l2 k := by
  induction l1 with
  | nil => rfl
  | cons a l1 ih =>
    cases ha : (a.1 == k) with
    | true =>
      exfalso
      simp [lookupKey, List.find?, ha] at h
    | false =>
      have h1 : lookupKey l1 k = Option.none := by
        simpa [lookupKey, List.find?, ha] using h
      simpa [lookupKey, List.find?, ha] using ih h1

theorem lookupKey_singleton_self (k : String) (e : CacheEntry) :
    lookupKey [(k, e)] k = Option.some e := by
  simp [lookupKey, List.find?]

theorem lookupKey_eraseKey_append (l : List (String × CacheEntry)) (k : String)
    (e : CacheEntry) : lookupKey (eraseKey l k ++ [(k, e)]) k = Option.some e := by
  rw [lookupKey_append_none (lookupKey_eraseKey_self l k)]
  exact lookupKey_singleton_self k e

theorem eraseKey_eq_self {l : List (String × CacheEntry)} {k : String}
    (h : lookupKey l k = Option.none) : eraseKey l k = l := by
  rw [eraseKey, List.filter_eq_self]
  intro p hp
  have hfind : l.find? (fun p => p.1 == k) = Option.none := by
    cases hf : l.find? (fun p => p.1 == k) with
    | none => rfl
    | some q => simp [lookupKey, hf] at h
  rw [List.find?_eq_none] at hfind
  simpa [bne_iff_ne] using hfind p hp

theorem length_eraseKey_le (l : List (String × CacheEntry)) (k : String) :
    (eraseKey l k).length ≤ l.length :=
  List.length_filter_le _ _

theorem length_eraseKey_lt {l : List (String × CacheEntry)} {k : String}
    {e : CacheEntry} (h : lookupKey l k = Option.some e) :
    (eraseKey l k).length < l.length := by
  induction l with
  | nil => simp [lookupKey] at h
  | cons a l ih =>
    cases ha : (a.1 == k) with
    | true =>
      have hb : (a.1 != k) = false := by simp [bne, ha]
      have hle : (eraseKey l k).length ≤ l.length := length_eraseKey_le l k
      simp [eraseKey, List.filter_cons, hb] at hle ⊢
      omega
    | false =>
      have h1 : lookupKey l k = Option.some e := by
        simpa [lookupKey, List.find?, ha] using h
      have hlt := ih h1
      have hb : (a.1 != k) = true := by simp [bne, ha]
      simp [eraseKey, List.filter_cons, hb] at hlt ⊢
      omega

theorem lookupKey_tail_eraseKey_append (l : List (String × CacheEntry))
    (k : String) (e : CacheEntry) (hlen : 1 ≤ (eraseKey l k).length) :
    lookupKey ((eraseKey l k ++ [(k, e)]).tail) k = Option.some e := by
  cases hE : eraseKey l k with
  | nil => rw [hE] at hlen; simp at hlen
  | cons a E2 =>
    have hne : ∀ p ∈ E2, p.1 ≠ k := fun p hp =>
      mem_eraseKey_ne p (hE ▸ List.mem_cons_of_mem a hp)
    simp only [List.cons_append, List.tail_cons]
    rw [lookupKey_append_none (lookupKey_eq_none hne)]
    exact lookupKey_singleton_self k e

theorem lookup_setByKey_self (st : LRUCache) (v : PyVal) (k : String)
    (ttl : Option Nat) (now : Nat) (hmax : 0 < st.max_size) :
    lookupKey (st.setByKey v k ttl now).cache k =
      Option.some ⟨v, now + ttl.getD st.default_ttl, now⟩ := by
  have hsplit : (st.setByKey v k ttl now).cache =
      (if st.max_size <
          (eraseKey st.cache k ++
            [(k, (⟨v, now + ttl.getD st.default_ttl, now⟩ : CacheEntry))]).length
       then (eraseKey st.cache k ++
              [(k, (⟨v, now + ttl.getD st.default_ttl, now⟩ : CacheEntry))]).tail
       else eraseKey st.cache k ++
              [(k, (⟨v, now + ttl.getD st.default_ttl, now⟩ : CacheEntry))]) := rfl
  rw [hsplit]
  by_cases hcond : st.max_size <
      (eraseKey st.cache k ++
        [(k, (⟨v, now + ttl.getD st.default_ttl, now⟩ : CacheEntry))]).length
  · rw [if_pos hcond]
    apply lookupKey_tail_eraseKey_append
    simp only [List.length_append, List.length_cons, List.length_nil] at hcond
    omega
  · rw [if_neg hcond]
    exact lookupKey_eraseKey_append st.cache k _

theorem setByKey_cache (st : LRUCache) (v : PyVal) (k : String)
    (ttl : Option Nat) (now : Nat) :
    (st.setByKey v k ttl now).cache =
      (if st.max_size <
          (eraseKey st.cache k ++
            [(k, (⟨v, now + ttl.getD st.default_ttl, now⟩ : CacheEntry))]).length
       then (eraseKey st.cache k ++
              [(k, (⟨v, now + ttl.getD st.default_ttl, now⟩ : CacheEntry))]).tail
       else eraseKey st.cache k ++
              [(k, (⟨v, now + ttl.getD st.default_ttl, now⟩ : CacheEntry))]) := rfl

theorem setByKey_max (st : LRUCache) (v : PyVal) (k : String)
    (ttl : Option Nat) (now : Nat) :
    (st.setByKey v k ttl now).max_size = st.max_size := rfl

theorem setByKey_size_le (st : LRUCache) (v : PyVal) (k : String)
    (ttl : Option Nat) (now : Nat) (hinv : st.size ≤ st.max_size) :
    (st.setByKey v k ttl now).size ≤ st.max_size := by
  have hE := length_eraseKey_le st.cache k
  unfold LRUCache.size
  rw [setByKey_cache]
  by_cases hcond : st.max_size <
      (eraseKey st.cache k ++
        [(k, (⟨v, now + ttl.getD st.default_ttl, now⟩ : CacheEntry))]).length
  · rw [if_pos hcond]
    rw [List.length_tail]
    simp only [List.length_append, List.length_cons, List.length_nil] at hcond ⊢
    unfold LRUCache.size at hinv
    omega
  · rw [if_neg hcond]
    omega

theorem getByKey_absent {st : LRUCache} {now : Nat} {key : String}
    (h : lookupKey st.cache key = Option.none) :
    st.getByKey now key = (.none, st) := by
  simp [LRUCache.getByKey, h]

theorem getByKey_expired {st : LRUCache} {now : Nat} {key : String}
    {e : CacheEntry} (h : lookupKey st.cache key = Option.some e)
    (hx : e.expires_at < now) :
    st.getByKey now key = (.none, { st with cache := eraseKey st.cache key }) := by
  simp [LRUCache.getByKey, h, hx]

theorem getByKey_hit {st : LRUCache} {now : Nat} {key : String}
    {e : CacheEntry} (h : lookupKey st.cache key = Option.some e)
    (hx : ¬ e.expires_at < now) :
    st.getByKey now key =
      (e.value, { st with cache := eraseKey st.cache key ++ [(key, e)] }) := by
  simp [LRUCache.getByKey, h, hx]

theorem getByKey_size_le (st : LRUCache) (now : Nat) (key : String) :
    ((st.getByKey now key).2).size ≤ st.size := by
  cases h : lookupKey st.cache key with
  | none => rw [getByKey_absent h]
  | some e =>
    by_cases hx : e.expires_at < now
    · rw [getByKey_expired h hx]
      exact length_eraseKey_le st.cache key
    · rw [getByKey_hit h hx]
      have := length_eraseKey_lt h
      unfold LRUCache.size
      simp only [List.length_append, List.length_cons, List.length_nil]
      omega

theorem foldl_eraseKey_length_le (ks : List String)
    (l : List (String × CacheEntry)) :
    (ks.foldl eraseKey l).length ≤ l.length := by
  induction ks generalizing l with
  | nil => exact Nat.le_refl _
  | cons k ks ih =>
    calc ((k :: ks).foldl eraseKey l).length
        = (ks.foldl eraseKey (eraseKey l k)).length := rfl
      _ ≤ (eraseKey l k).length := ih _
      _ ≤ l.length := length_eraseKey_le l k

theorem cleanup_fst (st : LRUCache) (now : Nat) :
    (st.cleanup now).1 =
      ((st.cache.filter (fun p => decide (p.2.expires_at < now))).map Prod.fst).length := rfl

theorem cleanup_cache (st : LRUCache) (now : Nat) :
    (st.cleanup now).2.cache =
      ((st.cache.filter (fun p => decide (p.2.expires_at < now))).map Prod.fst).foldl
        eraseKey st.cache := rfl

theorem cleanup_size_le (st : LRUCache) (now : Nat) :
    ((st.cleanup now).2).size ≤ st.size := by
  unfold LRUCache.size
  rw [cleanup_cache]
  exact foldl_eraseKey_length_le _ _

theorem foldl_eraseKey_cons {a : String × CacheEntry} {ks : List String}
    (l : List (String × CacheEntry)) (h : ∀ x ∈ ks, a.1 ≠ x) :
    ks.foldl eraseKey (a :: l) = a :: ks.foldl eraseKey l := by
  induction ks generalizing l with
  | nil => rfl
  | cons k ks ih =>
    have hb : (a.1 != k) = true := by
      simp [bne_iff_ne]
      exact h k (List.mem_cons_self k ks)
    have hstep : eraseKey (a :: l) k = a :: eraseKey l k := by
      simp [eraseKey, List.filter_cons, hb]
    calc (k :: ks).foldl eraseKey (a :: l)
        = ks.foldl eraseKey (eraseKey (a :: l) k) := rfl
      _ = ks.foldl eraseKey (a :: eraseKey l k) := by rw [hstep]
      _ = a :: ks.foldl eraseKey (eraseKey l k) :=
          ih _ (fun x hx => h x (List.mem_cons_of_mem k hx))
      _ = a :: (k :: ks).foldl eraseKey l := rfl

theorem cleanup_filter (l : List (String × CacheEntry)) (now : Nat)
    (hnd : (l.map Prod.fst).Nodup) :
    ((l.filter (fun p => decide (p.2.expires_at < now))).map Prod.fst).foldl
        eraseKey l
      = l.filter (fun p => !decide (p.2.expires_at < now)) := by
  induction l with
  | nil => rfl
  | cons a l ih =>
    have ha : a.1 ∉ l.map Prod.fst := by
      simp only [List.map_cons, List.nodup_cons] at hnd
      exact hnd.1
    have hnd2 : (l.map Prod.fst).Nodup := by
      simp only [List.map_cons, List.nodup_cons] at hnd
      exact hnd.2
    cases hdec : decide (a.2.expires_at < now) with
    | true =>
      have hfc : (a :: l).filter (fun p => decide (p.2.expires_at < now))
          = a :: l.filter (fun p => decide (p.2.expires_at < now)) := by
        simp [List.filter_cons, hdec]
      have herase : eraseKey (a :: l) a.1 = l := by
        have hb : (a.1 != a.1) = false := by simp
        have hl : eraseKey l a.1 = l := by
          rw [eraseKey, List.filter_eq_self]
          intro p hp
          simp only [bne_iff_ne, ne_eq, decide_eq_true_eq]
          intro hpk
          exact ha (hpk ▸ List.mem_map_of_mem Prod.fst hp)
        simp [eraseKey, List.filter_cons, hb] at hl ⊢
        exact hl
      have hrhs : (a :: l).filter (fun p => !decide (p.2.expires_at < now))
          = l.filter (fun p => !decide (p.2.expires_at < now)) := by
        simp [List.filter_cons, hdec]
      rw [hfc, hrhs, List.map_cons]
      calc (a.1 :: (l.filter (fun p => decide (p.2.expires_at < now))).map Prod.fst).foldl
              eraseKey (a :: l)
          = ((l.filter (fun p => decide (p.2.expires_at < now))).map Prod.fst).foldl
              eraseKey (eraseKey (a :: l) a.1) := rfl
        _ = ((l.filter (fun p => decide (p.2.expires_at < now))).map Prod.fst).foldl
              eraseKey l := by rw [herase]
        _ = l.filter (fun p => !decide (p.2.expires_at < now)) := ih hnd2
    | false =>
      have hfc : (a :: l).filter (fun p => decide (p.2.expires_at < now))
          = l.filter (fun p => decide (p.2.expires_at < now)) := by
        simp [List.filter_cons, hdec]
      have hrhs : (a :: l).filter (fun p => !decide (p.2.expires_at < now))
          = a :: l.filter (fun p => !decide (p.2.expires_at < now)) := by
        simp [List.filter_cons, hdec]
      rw [hfc, hrhs]
      have hks : ∀ x ∈ (l.filter (fun p => decide (p.2.expires_at < now))).map Prod.fst,
          a.1 ≠ x := by
        intro x hx hax
        apply ha
        rcases List.mem_map.1 hx with ⟨p, hp, hpx⟩
        have hpl : p ∈ l := List.mem_of_mem_filter hp
        exact hax ▸ hpx ▸ List.mem_map_of_mem Prod.fst hpl
      rw [foldl_eraseKey_cons l hks, ih hnd2]

/-- Claim C3: for every LRUCache with positive max_size whose size is
within the bound, the invariant size ≤ max_size holds after every set (when
the insertion pushes the count past max_size the current head, the
least-recently-used entry, is evicted whatever its expiry), and get,
cleanup and clear never increase the entry count. -/
theorem C3_size_invariant (st : LRUCache) (hmax : 0 < st.max_size)
    (hinv : st.size ≤ st.max_size) :
    (∀ v k ttl now, (st.setByKey v k ttl now).size ≤ st.max_size) ∧
    (∀ v k ttl now, lookupKey st.cache k = Option.none → st.size = st.max_size →
      (st.setByKey v k ttl now).cache =
        st.cache.tail ++ [(k, ⟨v, now + ttl.getD st.default_ttl, now⟩)]) ∧
    (∀ now key, ((st.getByKey now key).2).size ≤ st.size) ∧
    (∀ now, ((st.cleanup now).2).size ≤ st.size) ∧
    (st.clear).size ≤ st.size := by
  refine ⟨fun v k ttl now => setByKey_size_le st v k ttl now hinv, ?_,
    fun now key => getByKey_size_le st now key,
    fun now => cleanup_size_le st now,
    by simp [LRUCache.clear, LRUCache.size]⟩
  intro v k ttl now habs hfull
  rw [setByKey_cache, eraseKey_eq_self habs]
  have hlen : st.max_size <
      (st.cache ++ [(k, (⟨v, now + ttl.getD st.default_ttl, now⟩ : CacheEntry))]).length := by
    simp only [List.length_append, List.length_cons, List.length_nil]
    unfold LRUCache.size at hfull
    omega
  rw [if_pos hlen]
  cases hc : st.cache with
  | nil =>
    exfalso
    unfold LRUCache.size at hfull
    rw [hc] at hfull
    simp at hfull
    omega
  | cons a rest => simp

/-- Witness for C3 at a concrete one-entry store of capacity two. -/
theorem C3_size_invariant_witness :
    0 < (⟨[(("a"), ⟨.int 1, 100, 0⟩)], 2, 60⟩ : LRUCache).max_size ∧
    (⟨[(("a"), ⟨.int 1, 100, 0⟩)], 2, 60⟩ : LRUCache).size ≤ 2 ∧
    ((⟨[(("a"), ⟨.int 1, 100, 0⟩)], 2, 60⟩ : LRUCache).setByKey (.int 2) ("b")
      Option.none 5).size ≤ 2 :=
  ⟨by decide, by decide,
    (C3_size_invariant ⟨[(("a"), ⟨.int 1, 100, 0⟩)], 2, 60⟩ (by decide)
      (by decide)).1 (.int 2) ("b") Option.none 5⟩

/-- Claim C2: with capacity two and no TTL elapsing, setting three distinct
keys evicts the first, leaving the second and third as hits; setting two
keys, reading the first and setting a third evicts the second while the
first and third remain. -/
theorem C2_lru_order (k1 k2 k3 : String) (v1 v2 v3 : PyVal) (dttl now : Nat)
    (h12 : k1 ≠ k2) (h13 : k1 ≠ k3) (h23 : k2 ≠ k3) :
    (lookupKey ((((⟨[], 2, dttl⟩ : LRUCache).setByKey v1 k1 Option.none now).setByKey
        v2 k2 Option.none now).setByKey v3 k3 Option.none now).cache k1
      = Option.none ∧
     (((((⟨[], 2, dttl⟩ : LRUCache).setByKey v1 k1 Option.none now).setByKey
        v2 k2 Option.none now).setByKey v3 k3 Option.none now).getByKey now k1).1
      = PyVal.none ∧
     (((((⟨[], 2, dttl⟩ : LRUCache).setByKey v1 k1 Option.none now).setByKey
        v2 k2 Option.none now).setByKey v3 k3 Option.none now).getByKey now k2).1 = v2 ∧
     (((((⟨[], 2, dttl⟩ : LRUCache).setByKey v1 k1 Option.none now).setByKey
        v2 k2 Option.none now).setByKey v3 k3 Option.none now).getByKey now k3).1 = v3) ∧
    ((((⟨[], 2, dttl⟩ : LRUCache).setByKey v1 k1 Option.none now).setByKey
        v2 k2 Option.none now).getByKey now k1).1 = v1 ∧
    (lookupKey (((((⟨[], 2, dttl⟩ : LRUCache).setByKey v1 k1 Option.none now).setByKey
        v2 k2 Option.none now).getByKey now k1).2.setByKey v3 k3 Option.none now).cache k2
      = Option.none ∧
     ((((((⟨[], 2, dttl⟩ : LRUCache).setByKey v1 k1 Option.none now).setByKey
        v2 k2 Option.none now).getByKey now k1).2.setByKey v3 k3 Option.none
        now).getByKey now k2).1 = PyVal.none ∧
     ((((((⟨[], 2, dttl⟩ : LRUCache).setByKey v1 k1 Option.none now).setByKey
        v2 k2 Option.none now).getByKey now k1).2.setByKey v3 k3 Option.none
        now).getByKey now k1).1 = v1 ∧
     ((((((⟨[], 2, dttl⟩ : LRUCache).setByKey v1 k1 Option.none now).setByKey
        v2 k2 Option.none now).getByKey now k1).2.setByKey v3 k3 Option.none
        now).getByKey now k3).1 = v3) := by
  have hfresh : ¬ (now + dttl < now) := by omega
  have hb12 : (k1 != k2) = true := bne_iff_ne.2 h12
  have hb13 : (k1 != k3) = true := bne_iff_ne.2 h13
  have hb23 : (k2 != k3) = true := bne_iff_ne.2 h23
  have hb21 : (k2 != k1) = true := bne_iff_ne.2 (Ne.symm h12)
  have hq21 : (k2 == k1) = false := by simpa using Ne.symm h12
  have hq31 : (k3 == k1) = false := by simpa using Ne.symm h13
  have hq12 : (k1 == k2) = false := by simpa using h12
  have hq32 : (k3 == k2) = false := by simpa using Ne.symm h23
  have hq13 : (k1 == k3) = false := by simpa using h13
  have hq23 : (k2 == k3) = false := by simpa using h23
  have h1 : (⟨[], 2, dttl⟩ : LRUCache).setByKey v1 k1 Option.none now =
      ⟨[(k1, ⟨v1, now + dttl, now⟩)], 2, dttl⟩ := by
    simp [LRUCache.setByKey, eraseKey]
  have h2 : (⟨[(k1, ⟨v1, now + dttl, now⟩)], 2, dttl⟩ : LRUCache).setByKey
      v2 k2 Option.none now =
      ⟨[(k1, ⟨v1, now + dttl, now⟩), (k2, ⟨v2, now + dttl, now⟩)], 2, dttl⟩ := by
    simp [LRUCache.setByKey, eraseKey, List.filter_cons, hb12]
  have h3 : (⟨[(k1, ⟨v1, now + dttl, now⟩), (k2, ⟨v2, now + dttl, now⟩)], 2, dttl⟩ :
      LRUCache).setByKey v3 k3 Option.none now =
      ⟨[(k2, ⟨v2, now + dttl, now⟩), (k3, ⟨v3, now + dttl, now⟩)], 2, dttl⟩ := by
    simp [LRUCache.setByKey, eraseKey, List.filter_cons, hb13, hb23]
  have hg1 : (⟨[(k1, ⟨v1, now + dttl, now⟩), (k2, ⟨v2, now + dttl, now⟩)], 2, dttl⟩ :
      LRUCache).getByKey now k1 =
      (v1, ⟨[(k2, ⟨v2, now + dttl, now⟩), (k1, ⟨v1, now + dttl, now⟩)], 2, dttl⟩) := by
    simp [LRUCache.getByKey, lookupKey, List.find?, eraseKey, List.filter_cons,
      hfresh, hb21]
  have h4 : (⟨[(k2, ⟨v2, now + dttl, now⟩), (k1, ⟨v1, now + dttl, now⟩)], 2, dttl⟩ :
      LRUCache).setByKey v3 k3 Option.none now =
      ⟨[(k1, ⟨v1, now + dttl, now⟩), (k3, ⟨v3, now + dttl, now⟩)], 2, dttl⟩ := by
    simp [LRUCache.setByKey, eraseKey, List.filter_cons, hb13, hb23]
  rw [h1, h2, h3, hg1, h4]
  refine ⟨⟨?_, ?_, ?_, ?_⟩, ?_, ?_, ?_, ?_, ?_⟩
  · simp [lookupKey, List.find?, hq21, hq31]
  · have habs : lookupKey
        [(k2, (⟨v2, now + dttl, now⟩ : CacheEntry)), (k3, ⟨v3, now + dttl, now⟩)] k1
        = Option.none := by
      simp [lookupKey, List.find?, hq21, hq31]
    rw [getByKey_absent habs]
  · have hlk : lookupKey
        [(k2, (⟨v2, now + dttl, now⟩ : CacheEntry)), (k3, ⟨v3, now + dttl, now⟩)] k2
        = Option.some ⟨v2, now + dttl, now⟩ := by
      simp [lookupKey, List.find?]
    rw [getByKey_hit hlk hfresh]
  · have hlk : lookupKey
        [(k2, (⟨v2, now + dttl, now⟩ : CacheEntry)), (k3, ⟨v3, now + dttl, now⟩)] k3
        = Option.some ⟨v3, now + dttl, now⟩ := by
      simp [lookupKey, List.find?, hq23]
    rw [getByKey_hit hlk hfresh]
  · rfl
  · simp [lookupKey, List.find?, hq12, hq32]
  · have habs : lookupKey
        [(k1, (⟨v1, now + dttl, now⟩ : CacheEntry)), (k3, ⟨v3, now + dttl, now⟩)] k2
        = Option.none := by
      simp [lookupKey, List.find?, hq12, hq32]
    rw [getByKey_absent habs]
  · have hlk : lookupKey
        [(k1, (⟨v1, now + dttl, now⟩ : CacheEntry)), (k3, ⟨v3, now + dttl, now⟩)] k1
        = Option.some ⟨v1, now + dttl, now⟩ := by
      simp [lookupKey, List.find?]
    rw [getByKey_hit hlk hfresh]
  · have hlk : lookupKey
        [(k1, (⟨v1, now + dttl, now⟩ : CacheEntry)), (k3, ⟨v3, now + dttl, now⟩)] k3
        = Option.some ⟨v3, now + dttl, now⟩ := by
      simp [lookupKey, List.find?, hq13]
    rw [getByKey_hit hlk hfresh]

/-- Witness for C2 with keys K1, K2, K3 and integer values. -/
theorem C2_lru_order_witness :
    lookupKey ((((⟨[], 2, 60⟩ : LRUCache).setByKey (.int 1) ("K1") Option.none
        0).setByKey (.int 2) ("K2") Option.none 0).setByKey (.int 3) ("K3")
        Option.none 0).cache ("K1") = Option.none ∧
    (((((⟨[], 2, 60⟩ : LRUCache).setByKey (.int 1) ("K1") Option.none 0).setByKey
        (.int 2) ("K2") Option.none 0).setByKey (.int 3) ("K3") Option.none
        0).getByKey 0 ("K2")).1 = PyVal.int 2 ∧
    lookupKey (((((⟨[], 2, 60⟩ : LRUCache).setByKey (.int 1) ("K1") Option.none
        0).setByKey (.int 2) ("K2") Option.none 0).getByKey 0 ("K1")).2.setByKey
        (.int 3) ("K3") Option.none 0).cache ("K2") = Option.none :=
  ⟨(C2_lru_order ("K1") ("K2") ("K3") (.int 1) (.int 2) (.int 3) 60 0
      (by decide) (by decide) (by decide)).1.1,
   (C2_lru_order ("K1") ("K2") ("K3") (.int 1) (.int 2) (.int 3) 60 0
      (by decide) (by decide) (by decide)).1.2.2.1,
   (C2_lru_order ("K1") ("K2") ("K3") (.int 1) (.int 2) (.int 3) 60 0
      (by decide) (by decide) (by decide)).2.2.1⟩

/-- Claim C5: a get on an expired key deletes the entry and reports the
miss marker; a get on a live key appends the entry at the most recently
used end and returns its value; setting with an explicit ttl then reading
before the deadline returns the value, and reading after the deadline
misses and removes the entry. -/
theorem C5_get_expiry (st : LRUCache) (key : String) (now : Nat) :
    (∀ e, lookupKey st.cache key = Option.some e → e.expires_at < now →
      st.getByKey now key = (.none, { st with cache := eraseKey st.cache key }) ∧
      lookupKey (st.getByKey now key).2.cache key = Option.none) ∧
    (∀ e, lookupKey st.cache key = Option.some e → ¬ e.expires_at < now →
      st.getByKey now key =
        (e.value, { st with cache := eraseKey st.cache key ++ [(key, e)] })) ∧
    (∀ v ttl t1, 0 < st.max_size →
      (¬ now + ttl < t1 →
        ((st.setByKey v key (Option.some ttl) now).getByKey t1 key).1 = v) ∧
      (now + ttl < t1 →
        ((st.setByKey v key (Option.some ttl) now).getByKey t1 key).1 = PyVal.none ∧
        lookupKey ((st.setByKey v key (Option.some ttl) now).getByKey t1 key).2.cache key
          = Option.none)) := by
  refine ⟨?_, ?_, ?_⟩
  · intro e h hx
    refine ⟨getByKey_expired h hx, ?_⟩
    rw [getByKey_expired h hx]
    exact lookupKey_eraseKey_self st.cache key
  · intro e h hx
    exact getByKey_hit h hx
  · intro v ttl t1 hmax
    have hset : lookupKey (st.setByKey v key (Option.some ttl) now).cache key =
        Option.some ⟨v, now + ttl, now⟩ := by
      have := lookup_setByKey_self st v key (Option.some ttl) now hmax
      simpa [Option.getD] using this
    constructor
    · intro hfresh
      have hx : ¬ (⟨v, now + ttl, now⟩ : CacheEntry).expires_at < t1 := hfresh
      rw [getByKey_hit hset hx]
    · intro hlate
      have hx : (⟨v, now + ttl, now⟩ : CacheEntry).expires_at < t1 := hlate
      rw [getByKey_expired hset hx]
      exact ⟨rfl, lookupKey_eraseKey_self _ key⟩

/-- Witness for C5: one-entry store, expired read at time 20, and a
set-then-get round trip. -/
theorem C5_get_expiry_witness :
    lookupKey (⟨[(("k"), ⟨.int 7, 10, 0⟩)], 5, 60⟩ : LRUCache).cache ("k")
        = Option.some ⟨.int 7, 10, 0⟩ ∧
    ((⟨[(("k"), ⟨.int 7, 10, 0⟩)], 5, 60⟩ : LRUCache).getByKey 20 ("k")).1 = PyVal.none ∧
    (((⟨[], 5, 60⟩ : LRUCache).setByKey (.str ("v")) ("k") (Option.some 30) 0).getByKey
        10 ("k")).1 = PyVal.str ("v") ∧
    (((⟨[], 5, 60⟩ : LRUCache).setByKey (.str ("v")) ("k") (Option.some 30) 0).getByKey
        31 ("k")).1 = PyVal.none := by
  refine ⟨rfl, ?_, ?_, ?_⟩
  · have h := ((C5_get_expiry ⟨[(("k"), ⟨.int 7, 10, 0⟩)], 5, 60⟩ ("k") 20).1
      ⟨.int 7, 10, 0⟩ rfl (by decide)).1
    rw [h]
  · have h := ((C5_get_expiry ⟨[], 5, 60⟩ ("k") 0).2.2 (.str ("v")) 30 10
      (by decide)).1 (by decide)
    exact h
  · have h := ((C5_get_expiry ⟨[], 5, 60⟩ ("k") 0).2.2 (.str ("v")) 30 31
      (by decide)).2 (by decide)
    exact h.1

/-- Claim C8: cleanup deletes exactly the entries whose expiry has passed,
keeps every live entry in place, and returns the number removed; on the
concrete store with three past-due and two future entries it returns 3 and
leaves size 2. -/
theorem C8_cleanup_removes_expired (st : LRUCache) (now : Nat)
    (hnd : keysNodup st) :
    (st.cleanup now).1 =
      (st.cache.filter (fun p => decide (p.2.expires_at < now))).length ∧
    (st.cleanup now).2.cache =
      st.cache.filter (fun p => !decide (p.2.expires_at < now)) ∧
    (cleanupDemoStore.cleanup 50).1 = 3 ∧
    ((cleanupDemoStore.cleanup 50).2).size = 2 := by
  refine ⟨?_, ?_, by decide, by decide⟩
  · rw [cleanup_fst, List.length_map]
  · rw [cleanup_cache]
    exact cleanup_filter st.cache now hnd

/-- Witness for C8 at the concrete five-entry store. -/
theorem C8_cleanup_removes_expired_witness :
    keysNodup cleanupDemoStore ∧
    (cleanupDemoStore.cleanup 50).1 = 3 ∧
    ((cleanupDemoStore.cleanup 50).2).size = 2 :=
  ⟨by show (cleanupDemoStore.cache.map Prod.fst).Nodup; decide,
   (C8_cleanup_removes_expired cleanupDemoStore 50
     (by show (cleanupDemoStore.cache.map Prod.fst).Nodup; decide)).2.2.1,
   (C8_cleanup_removes_expired cleanupDemoStore 50
     (by show (cleanupDemoStore.cache.map Prod.fst).Nodup; decide)).2.2.2⟩

theorem jsonDumpsKVs_eq_map (l : List (String × PyVal)) :
    jsonDumpsKVs l = l.map (fun kv => (kv.1, jsonDumps kv.2)) := by
  induction l with
  | nil => rfl
  | cons a l ih =>
    cases a with
    | mk k v => simp [jsonDumpsKVs, ih]

theorem sortPairs_eq_of_perm {α : Type} (l1 l2 : List (String × α))
    (hp : l1.Perm l2) (hnd : (l1.map Prod.fst).Nodup) :
    sortPairs l1 = sortPairs l2 := by
  haveI htot : IsTotal (String × α) (fun a b => a.1 ≤ b.1) :=
    ⟨fun a b => le_total a.1 b.1⟩
  haveI htrans : IsTrans (String × α) (fun a b => a.1 ≤ b.1) :=
    ⟨fun a b c hab hbc => le_trans hab hbc⟩
  have hs1 : List.Sorted (fun a b : String × α => a.1 ≤ b.1) (sortPairs l1) :=
    List.sorted_insertionSort _ l1
  have hs2 : List.Sorted (fun a b : String × α => a.1 ≤ b.1) (sortPairs l2) :=
    List.sorted_insertionSort _ l2
  have hp1 : (sortPairs l1).Perm l1 := List.perm_insertionSort _ l1
  have hp2 : (sortPairs l2).Perm l2 := List.perm_insertionSort _ l2
  have hperm : (sortPairs l1).Perm (sortPairs l2) := hp1.trans (hp.trans hp2.symm)
  have hnd1 : ((sortPairs l1).map Prod.fst).Nodup := ((hp1.map Prod.fst).nodup_iff).2 hnd
  have hnd2 : ((sortPairs l2).map Prod.fst).Nodup := ((hperm.map Prod.fst).nodup_iff).1 hnd1
  have hne1 : List.Pairwise (fun a b : String × α => a.1 ≠ b.1) (sortPairs l1) :=
    List.pairwise_map.1 hnd1
  have hne2 : List.Pairwise (fun a b : String × α => a.1 ≠ b.1) (sortPairs l2) :=
    List.pairwise_map.1 hnd2
  have hstrict1 : List.Pairwise (fun a b : String × α => a.1 < b.1) (sortPairs l1) :=
    (List.Pairwise.and hs1 hne1).imp (fun h => lt_of_le_of_ne h.1 h.2)
  have hstrict2 : List.Pairwise (fun a b : String × α => a.1 < b.1) (sortPairs l2) :=
    (List.Pairwise.and hs2 hne2).imp (fun h => lt_of_le_of_ne h.1 h.2)
  haveI : IsAntisymm (String × α) (fun a b => a.1 < b.1) :=
    ⟨fun a b h1 h2 => absurd (lt_trans h1 h2) (lt_irrefl _)⟩
  exact List.eq_of_perm_of_sorted hperm hstrict1 hstrict2

theorem jsonDumps_dict_perm {d1 d2 : List (String × PyVal)} (hp : d1.Perm d2)
    (hnd : (d1.map Prod.fst).Nodup) :
    jsonDumps (.dict d1) = jsonDumps (.dict d2) := by
  have hpm : (jsonDumpsKVs d1).Perm (jsonDumpsKVs d2) := by
    rw [jsonDumpsKVs_eq_map, jsonDumpsKVs_eq_map]
    exact hp.map _
  have hndm : ((jsonDumpsKVs d1).map Prod.fst).Nodup := by
    rw [jsonDumpsKVs_eq_map, List.map_map]
    exact hnd
  have hsort := sortPairs_eq_of_perm _ _ hpm hndm
  simp only [jsonDumps]
  rw [hsort]

theorem serializeArg_congr (a b : PyVal) (h : argEquiv a b) :
    serializeArg a = serializeArg b := by
  rcases h with rfl | ⟨d1, d2, rfl, rfl, hp, hnd⟩
  · rfl
  · simpa [serializeArg] using jsonDumps_dict_perm hp hnd

theorem orderedInsert_forall₂ {p q : String × PyVal} (hpq : kwargEquiv p q)
    {s1 s2 : List (String × PyVal)} (h : List.Forall₂ kwargEquiv s1 s2) :
    List.Forall₂ kwargEquiv
      (List.orderedInsert (fun a b => a.1 ≤ b.1) p s1)
      (List.orderedInsert (fun a b => a.1 ≤ b.1) q s2) := by
  induction h with
  | nil => exact List.Forall₂.cons hpq List.Forall₂.nil
  | @cons x y t1 t2 hxy hrest ih =>
    simp only [List.orderedInsert]
    by_cases hc : p.1 ≤ x.1
    · rw [if_pos hc, if_pos (by rw [← hpq.1, ← hxy.1]; exact hc)]
      exact List.Forall₂.cons hpq (List.Forall₂.cons hxy hrest)
    · rw [if_neg hc, if_neg (by rw [← hpq.1, ← hxy.1]; exact hc)]
      exact List.Forall₂.cons hxy ih

theorem sortPairs_forall₂ {l1 l2 : List (String × PyVal)}
    (h : List.Forall₂ kwargEquiv l1 l2) :
    List.Forall₂ kwargEquiv (sortPairs l1) (sortPairs l2) := by
  induction h with
  | nil => exact List.Forall₂.nil
  | @cons x y t1 t2 hxy hrest ih =>
    simp only [sortPairs, List.insertionSort] at ih ⊢
    exact orderedInsert_forall₂ hxy ih

theorem generateKey_congr {args1 args2 : List PyVal}
    {kwargs1 kwargs2 : List (String × PyVal)}
    (hargs : List.Forall₂ argEquiv args1 args2)
    (hkw : List.Forall₂ kwargEquiv kwargs1 kwargs2) :
    generateKey args1 kwargs1 = generateKey args2 kwargs2 := by
  have h1 : args1.map serializeArg = args2.map serializeArg := by
    induction hargs with
    | nil => rfl
    | @cons a b t1 t2 hab hrest ih => simp [serializeArg_congr _ _ hab, ih]
  have hrender : ∀ {s1 s2 : List (String × PyVal)}, List.Forall₂ kwargEquiv s1 s2 →
      s1.map (fun kv => kv.1 ++ (":") ++ serializeArg kv.2)
        = s2.map (fun kv => kv.1 ++ (":") ++ serializeArg kv.2) := by
    intro s1 s2 hs
    induction hs with
    | nil => rfl
    | @cons x y t1 t2 hxy hrest ih =>
      simp [hxy.1, serializeArg_congr _ _ hxy.2, ih]
  have h2 := hrender (sortPairs_forall₂ hkw)
  unfold generateKey keyString keyParts
  rw [h1, h2]

/-- Claim C6: key derivation is deterministic — the same arguments always
derive the same key — and insensitive to dict insertion order: argument
lists related by argEquiv (equal up to permuting the bindings of a dict
with unique keys) derive equal keys. -/
theorem C6_key_determinism (args1 args2 : List PyVal)
    (kwargs1 kwargs2 : List (String × PyVal))
    (hargs : List.Forall₂ argEquiv args1 args2)
    (hkw : List.Forall₂ kwargEquiv kwargs1 kwargs2) :
    generateKey args1 kwargs1 = generateKey args1 kwargs1 ∧
    generateKey args1 kwargs1 = generateKey args2 kwargs2 :=
  ⟨rfl, generateKey_congr hargs hkw⟩

/-- Witness for C6: the same two bindings inserted in both orders. -/
theorem C6_key_determinism_witness :
    generateKey [.dict [(("b"), .int 1), (("a"), .int 2)]] []
      = generateKey [.dict [(("a"), .int 2), (("b"), .int 1)]] [] := by
  have hperm : ([(("b"), PyVal.int 1), (("a"), PyVal.int 2)]).Perm
      [(("a"), PyVal.int 2), (("b"), PyVal.int 1)] :=
    List.Perm.swap (("a"), PyVal.int 2) (("b"), PyVal.int 1) []
  exact (C6_key_determinism _ _ _ _
    (List.Forall₂.cons (Or.inr ⟨_, _, rfl, rfl, hperm, by decide⟩) List.Forall₂.nil)
    List.Forall₂.nil).2

theorem stringData_inj {s t : String} (h : s.data = t.data) : s = t := by
  cases s
  cases t
  exact congrArg String.mk h

theorem chars_append_pipe_inj : ∀ (a1 a2 b1 b2 : List Char),
    ('|') ∉ a1 → ('|') ∉ a2 →
    a1 ++ ('|') :: b1 = a2 ++ ('|') :: b2 → a1 = a2 ∧ b1 = b2 := by
  intro a1
  induction a1 with
  | nil =>
    intro a2 b1 b2 h1 h2 he
    cases a2 with
    | nil => simpa using he
    | cons c t =>
      exfalso
      simp only [List.nil_append, List.cons_append, List.cons.injEq] at he
      obtain ⟨hc, _⟩ := he
      subst hc
      exact h2 (List.mem_cons_self _ _)
  | cons c t ih =>
    intro a2 b1 b2 h1 h2 he
    cases a2 with
    | nil =>
      exfalso
      simp only [List.cons_append, List.nil_append, List.cons.injEq] at he
      obtain ⟨hc, _⟩ := he
      subst hc
      exact h1 (List.mem_cons_self _ _)
    | cons c2 t2 =>
      simp only [List.cons_append, List.cons.injEq] at he
      obtain ⟨hc, hrest⟩ := he
      have h1t : ('|') ∉ t := fun hm => h1 (List.mem_cons_of_mem c hm)
      have h2t : ('|') ∉ t2 := fun hm => h2 (List.mem_cons_of_mem c2 hm)
      obtain ⟨hta, htb⟩ := ih t2 b1 b2 h1t h2t hrest
      exact ⟨by rw [hc, hta], htb⟩

theorem joinParts_cons (a : String) (l : List String) (h : l ≠ []) :
    joinParts (a :: l) = a ++ ("|") ++ joinParts l := by
  cases l with
  | nil => exact absurd rfl h
  | cons b m => rfl

theorem joinParts_inj : ∀ (l1 l2 : List String),
    (∀ s ∈ l1, ('|') ∉ s.data) → (∀ s ∈ l2, ('|') ∉ s.data) →
    l1.length = l2.length → joinParts l1 = joinParts l2 → l1 = l2 := by
  intro l1
  induction l1 with
  | nil =>
    intro l2 _ _ hlen _
    cases l2 with
    | nil => rfl
    | cons b m => simp at hlen
  | cons a l1 ih =>
    intro l2 h1 h2 hlen he
    cases l2 with
    | nil => simp at hlen
    | cons b m =>
      have hlen2 : l1.length = m.length := by
        simpa using hlen
      by_cases hl1 : l1 = []
      · have hm : m = [] := by
          rw [hl1] at hlen2
          exact (List.length_eq_zero.1 hlen2.symm)
        subst hl1
        subst hm
        simpa [joinParts] using he
      · have hm : m ≠ [] := by
          intro hmm
          rw [hmm] at hlen2
          simp at hlen2
          exact hl1 hlen2
        rw [joinParts_cons a l1 hl1, joinParts_cons b m hm] at he
        have hd := congrArg String.data he
        rw [String.data_append, String.data_append, String.data_append,
          String.data_append] at hd
        have hpipe : ("|").data = [('|')] := rfl
        rw [hpipe, List.append_assoc, List.append_assoc, List.singleton_append,
          List.singleton_append] at hd
        have hinj := chars_append_pipe_inj a.data b.data (joinParts l1).data
          (joinParts m).data (h1 a (List.mem_cons_self a l1))
          (h2 b (List.mem_cons_self b m)) hd
        have hab : a = b := stringData_inj hinj.1
        have htail : joinParts l1 = joinParts m := stringData_inj hinj.2
        have h1t : ∀ s ∈ l1, ('|') ∉ s.data :=
          fun s hs => h1 s (List.mem_cons_of_mem a hs)
        have h2t : ∀ s ∈ m, ('|') ∉ s.data :=
          fun s hs => h2 s (List.mem_cons_of_mem b hs)
        rw [hab, ih m h1t h2t hlen2 htail]

theorem keyString_strs (l : List String) :
    keyString (l.map PyVal.str) [] = joinParts l := by
  unfold keyString keyParts
  have h : (l.map PyVal.str).map serializeArg = l := by
    rw [List.map_map]
    have hid : serializeArg ∘ PyVal.str = id := funext fun s => rfl
    rw [hid, List.map_id]
  rw [h]
  have hkw : (sortPairs ([] : List (String × PyVal))).map
      (fun kv => kv.1 ++ (":") ++ serializeArg kv.2) = [] := rfl
  rw [hkw, List.append_nil]

/-- Claim C7 counterexample: the argument lists consisting of the integer 1
and of the string "1" are different, yet both serialize to the same key
string, so _generate_key returns the identical key — a deterministic,
non-hash collision. -/
theorem C7_counterexample :
    ([PyVal.int 1] ≠ [PyVal.str ("1")]) ∧
    generateKey [PyVal.int 1] [] = generateKey [PyVal.str ("1")] [] := by
  constructor
  · simp
  · have h : keyString [PyVal.int 1] [] = keyString [PyVal.str ("1")] [] := rfl
    exact congrArg md5String h

/-- Claim C7 as amended: key distinctness fails in general — distinct
argument sets whose serializations coincide collide deterministically — but
it does hold for argument sets of equally many string arguments none of
which contains the pipe separator: there the serialized key strings, and
hence the derived keys up to hash collision, always differ. -/
theorem C7_distinctness_amended (l1 l2 : List String)
    (h1 : ∀ s ∈ l1, ('|') ∉ s.data) (h2 : ∀ s ∈ l2, ('|') ∉ s.data)
    (hlen : l1.length = l2.length) (hne : l1 ≠ l2) :
    keyString (l1.map PyVal.str) [] ≠ keyString (l2.map PyVal.str) [] := by
  rw [keyString_strs, keyString_strs]
  intro he
  exact hne (joinParts_inj l1 l2 h1 h2 hlen he)

/-- Witness for the amended C7 on the one-string argument lists a and b. -/
theorem C7_distinctness_amended_witness :
    keyString ([("a")].map PyVal.str) [] ≠ keyString ([("b")].map PyVal.str) [] :=
  C7_distinctness_amended [("a")] [("b")] (by decide) (by decide) rfl (by decide)

theorem joinParts_length_lt (l : List String) (x : String) (hx : 0 < x.length) :
    (joinParts l).length < (joinParts (l ++ [x])).length := by
  induction l with
  | nil => simpa [joinParts] using hx
  | cons a l ih =>
    cases l with
    | nil =>
      show (joinParts [a]).length < (joinParts [a, x]).length
      simp [joinParts, String.length_append]
      omega
    | cons b m =>
      have hL : joinParts (a :: b :: m) = a ++ ("|") ++ joinParts (b :: m) := rfl
      have hR : joinParts (a :: ((b :: m) ++ [x]))
          = a ++ ("|") ++ joinParts ((b :: m) ++ [x]) := by
        exact joinParts_cons a ((b :: m) ++ [x]) (by simp)
      show (joinParts (a :: b :: m)).length
          < (joinParts (a :: ((b :: m) ++ [x]))).length
      rw [hL, hR, String.length_append, String.length_append,
        String.length_append, String.length_append]
      omega

/-- Claim C1 as amended: after a non-forced call that misses the cache and
runs the wrapped operation, cache_llm_result writes the result back exactly
when it is a dict without an "error" key, while cache_api_response writes
it back exactly when it is NOT a dict carrying an "error" key — so a
non-dict result, a scalar or a string, IS written by the api variant. -/
theorem C1_writeback_policy (fres : PyVal) (args : List PyVal)
    (kwargs : List (String × PyVal)) (fname : String) (ttl : Nat)
    (st1 st2 : LRUCache) (now : Nat)
    (hmax1 : 0 < st1.max_size) (hmax2 : 0 < st2.max_size)
    (hforce : hasTruthyForce kwargs = false)
    (hmiss1 : lookupKey st1.cache (generateKey args kwargs) = Option.none)
    (hmiss2 : lookupKey st2.cache (generateKey (.str fname :: args) kwargs)
      = Option.none) :
    (llmWrapperCall fres args kwargs st1 now).calls = 1 ∧
    (llmCacheable fres = true →
      lookupKey (llmWrapperCall fres args kwargs st1 now).store.cache
          (generateKey args kwargs)
        = Option.some ⟨fres, now + st1.default_ttl, now⟩) ∧
    (llmCacheable fres = false →
      (llmWrapperCall fres args kwargs st1 now).store = st1) ∧
    (apiWrapperCall ttl fname fres args kwargs st2 now).calls = 1 ∧
    (apiCacheable fres = true →
      lookupKey (apiWrapperCall ttl fname fres args kwargs st2 now).store.cache
          (generateKey (.str fname :: args) kwargs)
        = Option.some ⟨fres, now + ttl, now⟩) ∧
    (apiCacheable fres = false →
      (apiWrapperCall ttl fname fres args kwargs st2 now).store = st2) := by
  have hget1 : st1.get now args kwargs = (.none, st1) := by
    unfold LRUCache.get
    exact getByKey_absent hmiss1
  have hget2 : st2.get now (.str fname :: args) kwargs = (.none, st2) := by
    unfold LRUCache.get
    exact getByKey_absent hmiss2
  have hL : llmWrapperCall fres args kwargs st1 now =
      (if llmCacheable fres then
        ⟨fres, st1.set fres args kwargs Option.none now, 1⟩
      else ⟨fres, st1, 1⟩) := by
    unfold llmWrapperCall
    rw [hforce, hget1]
    simp [PyVal.isNone]
  have hA : apiWrapperCall ttl fname fres args kwargs st2 now =
      (if apiCacheable fres then
        ⟨fres, st2.set fres (.str fname :: args) kwargs (Option.some ttl) now, 1⟩
      else ⟨fres, st2, 1⟩) := by
    unfold apiWrapperCall
    rw [hget2]
    simp [PyVal.isNone]
  refine ⟨?_, ?_, ?_, ?_, ?_, ?_⟩
  · rw [hL]; cases llmCacheable fres <;> rfl
  · intro hc
    rw [hL, if_pos hc]
    unfold LRUCache.set
    have := lookup_setByKey_self st1 fres (generateKey args kwargs)
      Option.none now hmax1
    simpa [Option.getD] using this
  · intro hc
    rw [hL, if_neg (by rw [hc]; exact Bool.false_ne_true)]
  · rw [hA]; cases apiCacheable fres <;> rfl
  · intro hc
    rw [hA, if_pos hc]
    unfold LRUCache.set
    have := lookup_setByKey_self st2 fres (generateKey (.str fname :: args) kwargs)
      (Option.some ttl) now hmax2
    simpa [Option.getD] using this
  · intro hc
    rw [hA, if_neg (by rw [hc]; exact Bool.false_ne_true)]

/-- Counterexample for C1 as stated: the wrapped api operation returns the
string "ok", which is not a mapping, yet after the call the api cache holds
one entry — the spec says a string result is never written. -/
theorem C1_counterexample :
    PyVal.isDict (.str ("ok")) = false ∧
    (apiWrapperCall 300 ("f") (.str ("ok")) [] [] apiCacheInit 0).store.size = 1 :=
  ⟨rfl, rfl⟩

/-- Witness for C1 at a dict result on the llm side and a string result on
the api side. -/
theorem C1_writeback_policy_witness :
    (llmWrapperCall (.dict [(("a"), .int 1)]) [.str ("x")] [] llmCacheInit 0).calls
      = 1 ∧
    lookupKey (llmWrapperCall (.dict [(("a"), .int 1)]) [.str ("x")] []
        llmCacheInit 0).store.cache (generateKey [.str ("x")] [])
      = Option.some ⟨.dict [(("a"), .int 1)], 86400, 0⟩ ∧
    lookupKey (apiWrapperCall 300 ("f") (.str ("ok")) [] [] apiCacheInit 0).store.cache
        (generateKey [.str ("f")] [])
      = Option.some ⟨.str ("ok"), 300, 0⟩ := by
  refine ⟨(C1_writeback_policy (.dict [(("a"), .int 1)]) [.str ("x")] [] ("f") 300
      llmCacheInit apiCacheInit 0 (by decide) (by decide) rfl rfl rfl).1, ?_, ?_⟩
  · have h := (C1_writeback_policy (.dict [(("a"), .int 1)]) [.str ("x")] [] ("f") 300
      llmCacheInit apiCacheInit 0 (by decide) (by decide) rfl rfl rfl).2.1 rfl
    simpa using h
  · have h := (C1_writeback_policy (.str ("ok")) [] [] ("f") 300
      llmCacheInit apiCacheInit 0 (by decide) (by decide) rfl rfl rfl).2.2.2.2.1 rfl
    simpa using h

/-- Claim C4 as amended: only cache_llm_result honors the force flag — with
force_analyze truthy it runs the operation once and neither reads nor
writes its cache (the store is returned untouched); cache_api_response has
no force handling and still serves a live cached entry even when the call
carries force_analyze=True. -/
theorem C4_force_flag (fres : PyVal) (args : List PyVal)
    (kwargs : List (String × PyVal)) (st : LRUCache) (now : Nat)
    (hforce : hasTruthyForce kwargs = true) :
    llmWrapperCall fres args kwargs st now = ⟨fres, st, 1⟩ ∧
    (∀ ttl fname e,
      lookupKey st.cache (generateKey (.str fname :: args) kwargs) = Option.some e →
      ¬ e.expires_at < now → e.value.isNone = false →
      (apiWrapperCall ttl fname fres args kwargs st now).ret = e.value ∧
      (apiWrapperCall ttl fname fres args kwargs st now).calls = 0) := by
  constructor
  · unfold llmWrapperCall
    rw [hforce]
    simp
  · intro ttl fname e hlk hx hv
    have hget := @getByKey_hit _ now _ _ hlk hx
    unfold apiWrapperCall LRUCache.get
    rw [hget]
    simp [hv]

set_option maxRecDepth 100000 in
/-- Counterexample for C4 as stated: a cache_api_response call with
force_analyze=True still writes the cache (one entry appears), and the
second identical forced call is served from the cache without running the
operation (zero calls) — the claim requires no write and exactly one run
per forced call. -/
theorem C4_counterexample :
    hasTruthyForce [(("force_analyze"), PyVal.bool true)] = true ∧
    (apiWrapperCall 300 ("g") (.str ("v")) [] [(("force_analyze"), .bool true)]
      apiCacheInit 0).store.size = 1 ∧
    (apiWrapperCall 300 ("g") (.str ("v2")) [] [(("force_analyze"), .bool true)]
      (apiWrapperCall 300 ("g") (.str ("v")) [] [(("force_analyze"), .bool true)]
        apiCacheInit 0).store 0).calls = 0 := by
  refine ⟨rfl, rfl, ?_⟩
  decide

set_option maxRecDepth 100000 in
/-- Witness for C4: a forced llm call on the empty store, and a forced api
call on a store holding a live entry under the derived key. -/
theorem C4_force_flag_witness :
    llmWrapperCall (.str ("r")) [] [(("force_analyze"), .bool true)] llmCacheInit 0
      = ⟨.str ("r"), llmCacheInit, 1⟩ ∧
    (apiWrapperCall 300 ("g") (.str ("fresh")) []
      [(("force_analyze"), .bool true)]
      ⟨[(generateKey [.str ("g")] [(("force_analyze"), .bool true)],
         ⟨.str ("c"), 100, 0⟩)], 5, 60⟩ 0).calls = 0 := by
  constructor
  · exact (C4_force_flag (.str ("r")) [] [(("force_analyze"), .bool true)]
      llmCacheInit 0 rfl).1
  · exact ((C4_force_flag (.str ("fresh")) [] [(("force_analyze"), .bool true)]
      ⟨[(generateKey [.str ("g")] [(("force_analyze"), .bool true)],
         ⟨.str ("c"), 100, 0⟩)], 5, 60⟩ 0 rfl).2 300 ("g") ⟨.str ("c"), 100, 0⟩
      rfl (by decide) rfl).2

/-- Claim C9: an api-wrapped operation returning None gets None written
into the cache, yet the stored None is indistinguishable from the miss
marker, so the next identical call runs the operation again. -/
theorem C9_cached_none_reexecutes (fname : String) (ttl : Nat)
    (args : List PyVal) (kwargs : List (String × PyVal)) (st : LRUCache)
    (now now2 : Nat) (fres2 : PyVal) (hmax : 0 < st.max_size)
    (hmiss : lookupKey st.cache (generateKey (.str fname :: args) kwargs)
      = Option.none)
    (hfresh : ¬ now + ttl < now2) :
    (apiWrapperCall ttl fname .none args kwargs st now).calls = 1 ∧
    lookupKey (apiWrapperCall ttl fname .none args kwargs st now).store.cache
        (generateKey (.str fname :: args) kwargs)
      = Option.some ⟨.none, now + ttl, now⟩ ∧
    (apiWrapperCall ttl fname fres2 args kwargs
      (apiWrapperCall ttl fname .none args kwargs st now).store now2).calls = 1 := by
  have hget : st.get now (.str fname :: args) kwargs = (.none, st) := by
    unfold LRUCache.get
    exact getByKey_absent hmiss
  have h1 : apiWrapperCall ttl fname .none args kwargs st now =
      ⟨.none, st.set .none (.str fname :: args) kwargs (Option.some ttl) now, 1⟩ := by
    unfold apiWrapperCall
    rw [hget]
    simp [PyVal.isNone, apiCacheable, PyVal.isDict]
  have hstored : lookupKey (st.set .none (.str fname :: args) kwargs
      (Option.some ttl) now).cache (generateKey (.str fname :: args) kwargs)
      = Option.some ⟨.none, now + ttl, now⟩ := by
    unfold LRUCache.set
    have := lookup_setByKey_self st .none (generateKey (.str fname :: args) kwargs)
      (Option.some ttl) now hmax
    simpa [Option.getD] using this
  refine ⟨by rw [h1], by rw [h1]; exact hstored, ?_⟩
  rw [h1]
  show (apiWrapperCall ttl fname fres2 args kwargs
    (st.set PyVal.none (PyVal.str fname :: args) kwargs (Option.some ttl) now)
    now2).calls = 1
  have hget2 := @getByKey_hit _ now2 _ _ hstored hfresh
  unfold apiWrapperCall LRUCache.get
  rw [hget2]
  cases hc : apiCacheable fres2 <;> simp [PyVal.isNone, hc]

theorem mem_setByKey {st : LRUCache} {v : PyVal} {k : String} {ttl : Option Nat}
    {now : Nat} {p : String × CacheEntry}
    (hp : p ∈ (st.setByKey v k ttl now).cache) : p ∈ st.cache ∨ p.1 = k := by
  rw [setByKey_cache] at hp
  split at hp
  · have hsub := (List.tail_sublist _).subset hp
    rcases List.mem_append.1 hsub with h | h
    · exact Or.inl (List.mem_of_mem_filter h)
    · simp at h
      exact Or.inr (by rw [h])
  · rcases List.mem_append.1 hp with h | h
    · exact Or.inl (List.mem_of_mem_filter h)
    · simp at h
      exact Or.inr (by rw [h])

theorem keyString_single_false_kwarg (args : List PyVal) :
    keyString args [(("force_analyze"), PyVal.bool false)]
      = joinParts (args.map serializeArg ++ [("force_analyze:False")]) := rfl

theorem keyString_no_kwargs (args : List PyVal) :
    keyString args [] = joinParts (args.map serializeArg) := by
  unfold keyString keyParts
  have hkw : (sortPairs ([] : List (String × PyVal))).map
      (fun kv => kv.1 ++ (":") ++ serializeArg kv.2) = [] := rfl
  rw [hkw, List.append_nil]

set_option maxRecDepth 100000 in
/-- Claim C10: a call that omits force_analyze and a call that passes
force_analyze=False explicitly serialize to different key strings — the
explicit flag is appended as a keyword part — and both take the non-forced
path; whenever the derived keys differ (they do on the representative
input, shown by evaluating the digests), a result cached by the first call
is not served to the second, which runs the wrapped operation itself. -/
theorem C10_force_false_changes_key (args : List PyVal) :
    keyString args [] ≠ keyString args [(("force_analyze"), PyVal.bool false)] ∧
    hasTruthyForce [] = false ∧
    hasTruthyForce [(("force_analyze"), PyVal.bool false)] = false ∧
    (∀ maxs dttl now now2 fres fres2,
      generateKey args [] ≠ generateKey args [(("force_analyze"), PyVal.bool false)] →
      (llmWrapperCall fres2 args [(("force_analyze"), PyVal.bool false)]
        ((llmWrapperCall fres args [] ⟨[], maxs, dttl⟩ now).store) now2).calls = 1) ∧
    generateKey [PyVal.str ("resume")] []
      ≠ generateKey [PyVal.str ("resume")] [(("force_analyze"), PyVal.bool false)] := by
  refine ⟨?_, rfl, rfl, ?_, ?_⟩
  · rw [keyString_no_kwargs, keyString_single_false_kwarg]
    intro he
    have hlt := joinParts_length_lt (args.map serializeArg) ("force_analyze:False")
      (by decide)
    rw [he] at hlt
    omega
  · intro maxs dttl now now2 fres fres2 hkeys
    have hget1 : (⟨[], maxs, dttl⟩ : LRUCache).get now args [] =
        (.none, ⟨[], maxs, dttl⟩) := by
      unfold LRUCache.get
      exact getByKey_absent rfl
    have ho1 : llmWrapperCall fres args [] ⟨[], maxs, dttl⟩ now =
        (if llmCacheable fres then
          ⟨fres, LRUCache.set ⟨[], maxs, dttl⟩ fres args [] Option.none now, 1⟩
        else ⟨fres, ⟨[], maxs, dttl⟩, 1⟩) := by
      unfold llmWrapperCall
      rw [hget1]
      simp [hasTruthyForce, kwLookup, PyVal.isNone]
    have hmem : ∀ p ∈ (llmWrapperCall fres args [] ⟨[], maxs, dttl⟩ now).store.cache,
        p.1 = generateKey args [] := by
      intro p hp
      rw [ho1] at hp
      split at hp
      · have hp2 : p ∈ (LRUCache.set ⟨[], maxs, dttl⟩ fres args [] Option.none
            now).cache := hp
        unfold LRUCache.set at hp2
        rcases mem_setByKey hp2 with h | h
        · simp at h
        · exact h
      · simp at hp
    have habs2 : lookupKey
        (llmWrapperCall fres args [] ⟨[], maxs, dttl⟩ now).store.cache
        (generateKey args [(("force_analyze"), PyVal.bool false)]) = Option.none :=
      lookupKey_eq_none (fun p hp => (hmem p hp) ▸ hkeys)
    obtain ⟨S, hS⟩ : ∃ S, (llmWrapperCall fres args [] ⟨[], maxs, dttl⟩ now).store = S :=
      ⟨_, rfl⟩
    rw [hS] at habs2
    have hget2 : S.get now2 args [(("force_analyze"), PyVal.bool false)] =
        (.none, S) := by
      unfold LRUCache.get
      exact getByKey_absent habs2
    rw [hS]
    unfold llmWrapperCall
    rw [hget2]
    cases hc : llmCacheable fres2 <;>
      simp [hasTruthyForce, kwLookup, PyVal.truthy, PyVal.isNone, hc]
  · decide

/-- Witness for C10: on the representative input, the call carrying the
explicit false flag runs the wrapped operation itself rather than being
served the result that the flag-omitting call cached. -/
theorem C10_force_false_changes_key_witness :
    (llmWrapperCall (.str ("y")) [PyVal.str ("resume")]
      [(("force_analyze"), PyVal.bool false)]
      ((llmWrapperCall (.dict [(("r"), .int 1)]) [PyVal.str ("resume")] []
        ⟨[], 500, 86400⟩ 0).store) 1).calls = 1 :=
  (C10_force_false_changes_key [PyVal.str ("resume")]).2.2.2.1 500 86400 0 1
    (.dict [(("r"), .int 1)]) (.str ("y"))
    (C10_force_false_changes_key [PyVal.str ("resume")]).2.2.2.2

/-- Witness for C9 on the empty api store. -/
theorem C9_cached_none_reexecutes_witness :
    (apiWrapperCall 300 ("h") .none [] [] apiCacheInit 0).calls = 1 ∧
    lookupKey (apiWrapperCall 300 ("h") .none [] [] apiCacheInit 0).store.cache
        (generateKey [.str ("h")] [])
      = Option.some ⟨.none, 300, 0⟩ ∧
    (apiWrapperCall 300 ("h") (.str ("x")) [] []
      (apiWrapperCall 300 ("h") .none [] [] apiCacheInit 0).store 1).calls = 1 := by
  have h := C9_cached_none_reexecutes ("h") 300 [] [] apiCacheInit 0 1 (.str ("x"))
    (by decide) rfl (by decide)
  exact ⟨h.1, by simpa using h.2.1, h.2.2⟩

end MLCache

